import Mathlib

/-!
Shallow embedding of the LFBBC-Finances offline-first data layer.

Source files embedded:
- the entity types (`src/unnamed/part_002`, first types variant: numeric timestamps);
- the local provider `src/src/contexts/AppProvider.tsx` (first variant, lines 1-378):
  `mergeData`, `syncWithCloud`, the CRUD mutations and the local import functions;
- the cloud API `src/src/lib/data.ts`: `updateIntegrante`, `deleteIntegrante`,
  `updateRazon`, `deleteRazon`;
- the members page `src/unnamed/part_000`: `handleDelete` and the import-processing
  logic of `processImport`.

Conventions: JS numbers used as timestamps become `Nat`; monetary amounts become
`Int` (the code only negates, compares with zero and takes absolute values, which
are exact); optional JS booleans (`isDeleted?`, `isProtected?`) become `Bool` with
`false` for `undefined`, matching how the code consumes them (`!item.isDeleted`,
truthiness tests); `Partial<...>` update objects become structures of `Option`
fields, `none` meaning the key is absent from the object; JS `Map` insertion-order
semantics are modelled by `mapSet` below.  Remote effects (`uuidv4()`,
`new Date().getTime()`) are passed in as explicit arguments.
-/

/-- Movement kind of a financial record (`Movimiento` in `src/unnamed/part_002`). -/
inductive Movimiento where
  | INGRESOS
  | GASTOS
  | INVERSION
deriving DecidableEq, Repr

/-- Member entity (`Integrante` in `src/unnamed/part_002`). -/
structure Integrante where
  id : String
  userId : String
  createdAt : Nat
  updatedAt : Nat
  isDeleted : Bool := false
  nombre : String
  isProtected : Bool := false
deriving DecidableEq, Repr

/-- Reason entity (`Razon` in `src/unnamed/part_002`). -/
structure Razon where
  id : String
  userId : String
  createdAt : Nat
  updatedAt : Nat
  isDeleted : Bool := false
  descripcion : String
  isQuickReason : Bool := false
  isProtected : Bool := false
deriving DecidableEq, Repr

/-- Financial record entity (`FinancialRecord` in `src/unnamed/part_002`). -/
structure FinancialRecord where
  id : String
  userId : String
  createdAt : Nat
  updatedAt : Nat
  isDeleted : Bool := false
  fecha : String
  integranteId : String
  razonId : String
  movimiento : Movimiento
  monto : Int
  descripcion : String
deriving DecidableEq, Repr

/-- The constant `DEFAULT_USER_ID` of `AppProvider.tsx`. -/
def DEFAULT_USER_ID : String := "default-user"

/-- JS `String.prototype.toUpperCase`, for the ASCII alphabet the data uses:
uppercase every character.  (Defined structurally on the character list so
that closed instances compute inside the kernel.) -/
def jsToUpperCase (s : String) : String := ⟨s.data.map Char.toUpper⟩

/-- JS `String.prototype.toLowerCase`, for the ASCII alphabet the data uses. -/
def jsToLowerCase (s : String) : String := ⟨s.data.map Char.toLower⟩

namespace AppProvider

/-- One step of building a JS `Map` keyed by `gid` from a list: `m.set(item.id, item)`.
Setting an existing key replaces the value in place (insertion order kept);
a new key is appended at the end.  Used by `mergeData` below. -/
def mapSet {α : Type} (gid : α → String) (m : List α) (item : α) : List α :=
  if m.any (fun x => gid x == gid item) then
    m.map (fun x => if gid x == gid item then item else x)
  else
    m ++ [item]

/-- The `mergeData` helper of `AppProvider.tsx` (first variant, lines 152-163):
build a `Map` from the local data keyed by `id`, `set` every cloud item over it,
then return the values with `isDeleted` entries filtered out.  `gid` and `gdel`
are the `id` and `isDeleted` accessors of the entity type. -/
def mergeData {α : Type} (gid : α → String) (gdel : α → Bool)
    (localData cloudChanges : List α) : List α :=
  ((localData ++ cloudChanges).foldl (mapSet gid) []).filter (fun item => !(gdel item))

/-- Partial update object for a financial record
(`Partial<Omit<FinancialRecord, 'id' | 'userId'>>` plus the injected `updatedAt`).
`none` means the key is absent from the JS object. -/
structure RecordUpdates where
  fecha : Option String := none
  integranteId : Option String := none
  razonId : Option String := none
  movimiento : Option Movimiento := none
  monto : Option Int := none
  descripcion : Option String := none
  createdAt : Option Nat := none
  updatedAt : Option Nat := none
  isDeleted : Option Bool := none
deriving DecidableEq, Repr

/-- Partial update object for a reason (`Partial<Omit<Razon, 'id' | 'userId'>>`). -/
structure RazonUpdates where
  descripcion : Option String := none
  isQuickReason : Option Bool := none
  isProtected : Option Bool := none
  createdAt : Option Nat := none
  updatedAt : Option Nat := none
  isDeleted : Option Bool := none
deriving DecidableEq, Repr

/-- The `PendingOperation` union type of `AppProvider.tsx` (first variant,
lines 33-42): `type` ('add' | 'update' | 'delete') times `collection`
('financialRecords' | 'integrantes' | 'razones'), with the payloads the code uses. -/
inductive PendingOperation where
  | addRecord (payload : FinancialRecord)
  | updateRecord (id : String) (updates : RecordUpdates)
  | deleteRecord (id : String)
  | addIntegrante (payload : Integrante)
  | updateIntegrante (id : String) (nombre : String) (updatedAt : Nat)
  | deleteIntegrante (id : String)
  | addRazon (payload : Razon)
  | updateRazon (id : String) (updates : RazonUpdates)
  | deleteRazon (id : String)
deriving DecidableEq, Repr

/-- The provider's local state: the three entity collections plus the pending
operation queue (the `useState` hooks of `AppProvider.tsx`, lines 67-70). -/
structure AppState where
  integrantes : List Integrante := []
  razones : List Razon := []
  financialRecords : List FinancialRecord := []
  pendingOps : List PendingOperation := []
deriving DecidableEq, Repr

/-- Amount-sign normalization performed by `addFinancialRecord`
(`AppProvider.tsx` lines 182-184, identically `data.ts` lines 129-135):
negate a positive amount for GASTOS or INVERSION, take the absolute value
of a negative amount for INGRESOS. -/
def normalizeMonto (movimiento : Movimiento) (monto : Int) : Int :=
  let m1 := if (movimiento = .GASTOS ∨ movimiento = .INVERSION) ∧ monto > 0 then -monto else monto
  if movimiento = .INGRESOS ∧ m1 < 0 then |m1| else m1

/-- The record built by `addFinancialRecord` (`AppProvider.tsx` lines 186-194)
from the input payload, the fresh uuid and the current time. -/
def mkNewRecord (fecha integranteId razonId : String) (movimiento : Movimiento)
    (monto : Int) (descripcion : String) (newId : String) (now : Nat) : FinancialRecord :=
  { id := newId
    userId := DEFAULT_USER_ID
    createdAt := now
    updatedAt := now
    isDeleted := false
    fecha := fecha
    integranteId := integranteId
    razonId := razonId
    movimiento := movimiento
    monto := normalizeMonto movimiento monto
    descripcion := descripcion }

/-- `addFinancialRecord` of `AppProvider.tsx` (first variant, lines 181-198):
normalize the amount sign, build the record with a fresh id and timestamps,
append it to the collection and enqueue an 'add' pending operation. -/
def addFinancialRecord (s : AppState) (fecha integranteId razonId : String)
    (movimiento : Movimiento) (monto : Int) (descripcion : String)
    (newId : String) (now : Nat) : AppState :=
  let newRecord := mkNewRecord fecha integranteId razonId movimiento monto descripcion newId now
  { s with financialRecords := s.financialRecords ++ [newRecord]
           pendingOps := s.pendingOps ++ [.addRecord newRecord] }

/-- Spread of a final update object over a record, as in
`{ ...r, ...finalUpdates, fecha: updates.fecha || r.fecha }`
(`AppProvider.tsx` line 203): every present key overwrites the field, except
that a missing or empty (falsy) `fecha` falls back to the record's own. -/
def applyRecordUpdates (r : FinancialRecord) (u : RecordUpdates) : FinancialRecord :=
  { r with
    fecha := match u.fecha with
      | some f => if f = "" then r.fecha else f
      | none => r.fecha
    integranteId := u.integranteId.getD r.integranteId
    razonId := u.razonId.getD r.razonId
    movimiento := u.movimiento.getD r.movimiento
    monto := u.monto.getD r.monto
    descripcion := u.descripcion.getD r.descripcion
    createdAt := u.createdAt.getD r.createdAt
    updatedAt := u.updatedAt.getD r.updatedAt
    isDeleted := u.isDeleted.getD r.isDeleted }

/-- `updateFinancialRecord` of `AppProvider.tsx` (first variant, lines 200-205):
inject `updatedAt := now` into the updates, apply them to the matching record
(no amount-sign normalization here) and enqueue an 'update' pending operation. -/
def updateFinancialRecord (s : AppState) (id : String) (updates : RecordUpdates)
    (now : Nat) : AppState :=
  let finalUpdates := { updates with updatedAt := some now }
  { s with
    financialRecords := s.financialRecords.map
      (fun r => if r.id == id then applyRecordUpdates r finalUpdates else r)
    pendingOps := s.pendingOps ++ [.updateRecord id finalUpdates] }

/-- `deleteFinancialRecord` of `AppProvider.tsx` (first variant, lines 207-210):
physically remove the record from the local collection and enqueue a 'delete'. -/
def deleteFinancialRecord (s : AppState) (id : String) : AppState :=
  { s with financialRecords := s.financialRecords.filter (fun r => !(r.id == id))
           pendingOps := s.pendingOps ++ [.deleteRecord id] }

/-- The member built by `addIntegrante` (`AppProvider.tsx` lines 213-221). -/
def mkNewIntegrante (nombre : String) (isProt : Bool) (newId : String) (now : Nat) : Integrante :=
  { id := newId
    nombre := jsToUpperCase nombre
    isProtected := isProt
    userId := DEFAULT_USER_ID
    createdAt := now
    updatedAt := now
    isDeleted := false }

/-- `addIntegrante` of `AppProvider.tsx` (first variant, lines 212-224). -/
def addIntegrante (s : AppState) (nombre : String) (isProt : Bool)
    (newId : String) (now : Nat) : AppState :=
  let newIntegrante := mkNewIntegrante nombre isProt newId now
  { s with integrantes := s.integrantes ++ [newIntegrante]
           pendingOps := s.pendingOps ++ [.addIntegrante newIntegrante] }

/-- `updateIntegrante` of `AppProvider.tsx` (first variant, lines 226-230):
uppercase the name, bump `updatedAt`, apply to the matching member and enqueue.
Note: no `isProtected` check is performed on this local path. -/
def updateIntegrante (s : AppState) (id : String) (nombre : String) (now : Nat) : AppState :=
  { s with
    integrantes := s.integrantes.map
      (fun i => if i.id == id then { i with nombre := jsToUpperCase nombre, updatedAt := now } else i)
    pendingOps := s.pendingOps ++ [.updateIntegrante id (jsToUpperCase nombre) now] }

/-- `deleteIntegrante` of `AppProvider.tsx` (first variant, lines 232-235):
physically remove the member and enqueue a 'delete'.  Note: no `isProtected`
check is performed on this local path. -/
def deleteIntegrante (s : AppState) (id : String) : AppState :=
  { s with integrantes := s.integrantes.filter (fun i => !(i.id == id))
           pendingOps := s.pendingOps ++ [.deleteIntegrante id] }

/-- The reason built by `addRazon` (`AppProvider.tsx` lines 238-247). -/
def mkNewRazon (descripcion : String) (isQuick isProt : Bool) (newId : String) (now : Nat) : Razon :=
  { id := newId
    descripcion := jsToUpperCase descripcion
    isQuickReason := isQuick
    isProtected := isProt
    userId := DEFAULT_USER_ID
    createdAt := now
    updatedAt := now
    isDeleted := false }

/-- `addRazon` of `AppProvider.tsx` (first variant, lines 237-250). -/
def addRazon (s : AppState) (descripcion : String) (isQuick isProt : Bool)
    (newId : String) (now : Nat) : AppState :=
  let newRazon := mkNewRazon descripcion isQuick isProt newId now
  { s with razones := s.razones ++ [newRazon]
           pendingOps := s.pendingOps ++ [.addRazon newRazon] }

/-- Spread of a final update object over a reason (`{ ...r, ...finalUpdates }`,
`AppProvider.tsx` line 263): every present key overwrites the field. -/
def applyRazonUpdates (r : Razon) (u : RazonUpdates) : Razon :=
  { r with
    descripcion := u.descripcion.getD r.descripcion
    isQuickReason := u.isQuickReason.getD r.isQuickReason
    isProtected := u.isProtected.getD r.isProtected
    createdAt := u.createdAt.getD r.createdAt
    updatedAt := u.updatedAt.getD r.updatedAt
    isDeleted := u.isDeleted.getD r.isDeleted }

/-- The final update object built by `updateRazon` (`AppProvider.tsx` lines 253-261):
`finalUpdates = { ...updates, updatedAt: now, descripcion: (updates.descripcion || '').toUpperCase() }`,
then `if (updates.descripcion) finalUpdates.descripcion = updates.descripcion.toUpperCase()`.
The net effect: `descripcion` is always present — the uppercased input when a
non-empty one was supplied, the empty string otherwise. -/
def razonFinalUpdates (u : RazonUpdates) (now : Nat) : RazonUpdates :=
  { u with updatedAt := some now
           descripcion := some (jsToUpperCase (u.descripcion.getD "")) }

/-- `updateRazon` of `AppProvider.tsx` (first variant, lines 252-265). -/
def updateRazon (s : AppState) (id : String) (u : RazonUpdates) (now : Nat) : AppState :=
  let finalUpdates := razonFinalUpdates u now
  { s with
    razones := s.razones.map
      (fun r => if r.id == id then applyRazonUpdates r finalUpdates else r)
    pendingOps := s.pendingOps ++ [.updateRazon id finalUpdates] }

/-- `deleteRazon` of `AppProvider.tsx` (first variant, lines 267-270). -/
def deleteRazon (s : AppState) (id : String) : AppState :=
  { s with razones := s.razones.filter (fun r => !(r.id == id))
           pendingOps := s.pendingOps ++ [.deleteRazon id] }

/-- Import payload for a member: `Omit<Integrante, 'id' | 'userId' | 'createdAt' | 'updatedAt'>`. -/
structure IntegranteInput where
  nombre : String
  isProtected : Bool := false
  isDeleted : Bool := false
deriving DecidableEq, Repr

/-- Import payload for a reason: `Omit<Razon, 'id' | 'userId' | 'createdAt' | 'updatedAt'>`. -/
structure RazonInput where
  descripcion : String
  isQuickReason : Bool := false
  isProtected : Bool := false
  isDeleted : Bool := false
deriving DecidableEq, Repr

/-- Import mode, `'add' | 'replace'`. -/
inductive ImportMode where
  | add
  | replace
deriving DecidableEq, Repr

/-- The member built from one import payload inside `importIntegrantesLocal`
(`AppProvider.tsx` lines 279-286): spread the payload, uppercase the name,
assign a fresh id and the shared timestamps. -/
def mkImportedIntegrante (i : IntegranteInput) (newId : String) (now : Nat) : Integrante :=
  { nombre := jsToUpperCase i.nombre
    isProtected := i.isProtected
    isDeleted := i.isDeleted
    id := newId
    userId := DEFAULT_USER_ID
    createdAt := now
    updatedAt := now }

/-- `importIntegrantesLocal` of `AppProvider.tsx` (first variant, lines 272-296):
in replace mode keep only the protected members; map payloads to fresh entities
(one uuid each, modelled by positional lookup in `newIds`); in add mode drop
payloads whose lowercased name is already present; append; set the collection.
Note: no pending operation is enqueued by this function. -/
def importIntegrantesLocal (s : AppState) (toImport : List IntegranteInput)
    (mode : ImportMode) (now : Nat) (newIds : List String) : AppState :=
  let base := if mode = .replace then s.integrantes.filter (fun i => i.isProtected) else s.integrantes
  let newIntegrantes := toImport.enum.map (fun p => mkImportedIntegrante p.2 (newIds.getD p.1 "") now)
  let finalIntegrantes :=
    if mode = .add then
      let existingNames := base.map (fun i => jsToLowerCase i.nombre)
      base ++ newIntegrantes.filter (fun i => !(existingNames.contains (jsToLowerCase i.nombre)))
    else
      base ++ newIntegrantes
  { s with integrantes := finalIntegrantes }

/-- The reason built from one import payload inside `importRazonesLocal`
(`AppProvider.tsx` lines 305-312). -/
def mkImportedRazon (r : RazonInput) (newId : String) (now : Nat) : Razon :=
  { descripcion := jsToUpperCase r.descripcion
    isQuickReason := r.isQuickReason
    isProtected := r.isProtected
    isDeleted := r.isDeleted
    id := newId
    userId := DEFAULT_USER_ID
    createdAt := now
    updatedAt := now }

/-- `importRazonesLocal` of `AppProvider.tsx` (first variant, lines 298-322):
same shape as `importIntegrantesLocal`, keyed by lowercased `descripcion`.
Note: no pending operation is enqueued by this function. -/
def importRazonesLocal (s : AppState) (toImport : List RazonInput)
    (mode : ImportMode) (now : Nat) (newIds : List String) : AppState :=
  let base := if mode = .replace then s.razones.filter (fun r => r.isProtected) else s.razones
  let newRazones := toImport.enum.map (fun p => mkImportedRazon p.2 (newIds.getD p.1 "") now)
  let finalRazones :=
    if mode = .add then
      let existingDescriptions := base.map (fun r => jsToLowerCase r.descripcion)
      base ++ newRazones.filter (fun r => !(existingDescriptions.contains (jsToLowerCase r.descripcion)))
    else
      base ++ newRazones
  { s with razones := finalRazones }

/-- Import payload for a financial record. -/
structure RecordInput where
  fecha : String
  integranteId : String
  razonId : String
  movimiento : Movimiento
  monto : Int
  descripcion : String
  isDeleted : Bool := false
deriving DecidableEq, Repr

/-- The record built from one import payload inside `importFinancialRecordsLocal`
(`AppProvider.tsx` lines 331-337).  No amount-sign normalization happens here. -/
def mkImportedRecord (r : RecordInput) (newId : String) (now : Nat) : FinancialRecord :=
  { fecha := r.fecha
    integranteId := r.integranteId
    razonId := r.razonId
    movimiento := r.movimiento
    monto := r.monto
    descripcion := r.descripcion
    isDeleted := r.isDeleted
    id := newId
    userId := DEFAULT_USER_ID
    createdAt := now
    updatedAt := now }

/-- `importFinancialRecordsLocal` of `AppProvider.tsx` (first variant, lines
324-345): replace wipes the collection, add appends.  Note: no pending
operation is enqueued by this function. -/
def importFinancialRecordsLocal (s : AppState) (toImport : List RecordInput)
    (mode : ImportMode) (now : Nat) (newIds : List String) : AppState :=
  let recordsWithIds := toImport.enum.map (fun p => mkImportedRecord p.2 (newIds.getD p.1 "") now)
  let finalRecords :=
    if mode = .add then s.financialRecords ++ recordsWithIds else recordsWithIds
  { s with financialRecords := finalRecords }

/-- Remote behavior of one sync pass.  `api.batchProcess` and
`api.getChangesSince` are called by `syncWithCloud` but are not present in
`src/src/lib/data.ts`; they are Modelled from the spec: the push is one atomic
batched write that throws if replay of any queued operation fails (spec 4.2
step 1 and the `batchWrite` contract of 6), and the pull returns, per
collection, the entities changed since the watermark (spec 4.2 step 2), here
given directly as the three `cloud*` lists.  `opOk i` says whether replaying
the i-th queued operation succeeds; `pullOk` says whether the pull round trip
succeeds; `now` is the wall-clock time taken at the end of the pass. -/
structure SyncEnv where
  opOk : Nat → Bool
  pullOk : Bool
  cloudIntegrantes : List Integrante
  cloudRazones : List Razon
  cloudRecords : List FinancialRecord
  now : Nat

/-- Whether the atomic batched push of `n` queued operations fails: it does
exactly when some operation in the batch fails to replay. -/
def pushFails (n : Nat) (opOk : Nat → Bool) : Bool :=
  (List.range n).any (fun i => !(opOk i))

/-- `syncWithCloud` of `AppProvider.tsx` (first variant, lines 93-150), acting
on the local state and the persisted `lastSyncTimestamp` watermark `wm`.
Push: if there are pending operations, replay them as one batch; a failure
throws into the catch block, leaving state, queue and watermark untouched.
On push success the queue is cleared; then the pull runs — if it fails, the
queue stays cleared but collections and watermark are untouched.  Otherwise
each collection is merged with `mergeData` and the watermark is set to `now`. -/
def syncWithCloud (s : AppState) (wm : Option Nat) (env : SyncEnv) : AppState × Option Nat :=
  if 0 < s.pendingOps.length ∧ pushFails s.pendingOps.length env.opOk = true then
    (s, wm)
  else if env.pullOk = false then
    ({ s with pendingOps := [] }, wm)
  else
    ({ integrantes := mergeData Integrante.id Integrante.isDeleted s.integrantes env.cloudIntegrantes
       razones := mergeData Razon.id Razon.isDeleted s.razones env.cloudRazones
       financialRecords :=
         mergeData FinancialRecord.id FinancialRecord.isDeleted s.financialRecords env.cloudRecords
       pendingOps := [] }, some env.now)

end AppProvider

/-- Error raised by the cloud API of `src/src/lib/data.ts`: the
protected-entity rejections ('No se puede modificar/eliminar ... protegido'). -/
inductive ApiError where
  | protectedEntity
deriving DecidableEq, Repr

namespace api

/-- `updateIntegrante` of `src/src/lib/data.ts` (lines 51-58), acting on the
remote `integrantes` collection for one owner, modelled as a list of documents.
If the document exists and is protected, throw; otherwise apply the partial
update `{ nombre: nombre.toUpperCase() }` to the matching document.
An error leaves the collection untouched (no new collection is produced). -/
def updateIntegrante (store : List Integrante) (id nombre : String) :
    Except ApiError (List Integrante) :=
  match store.find? (fun d => d.id == id) with
  | some d =>
    if d.isProtected then .error .protectedEntity
    else .ok (store.map (fun x => if x.id == id then { x with nombre := jsToUpperCase nombre } else x))
  | none => .ok store

/-- `deleteIntegrante` of `src/src/lib/data.ts` (lines 60-67): if the document
exists and is protected, throw; otherwise delete the document. -/
def deleteIntegrante (store : List Integrante) (id : String) :
    Except ApiError (List Integrante) :=
  match store.find? (fun d => d.id == id) with
  | some d =>
    if d.isProtected then .error .protectedEntity
    else .ok (store.filter (fun x => !(x.id == id)))
  | none => .ok (store.filter (fun x => !(x.id == id)))

/-- The update object after the in-place mutation of `updateRazon` in
`src/src/lib/data.ts` (lines 110-112): a truthy (non-empty) `descripcion`
is uppercased; an absent or empty one is left as supplied. -/
def razonApiUpdates (u : AppProvider.RazonUpdates) : AppProvider.RazonUpdates :=
  { u with descripcion := match u.descripcion with
      | some s => if s = "" then some s else some (jsToUpperCase s)
      | none => none }

/-- `updateRazon` of `src/src/lib/data.ts` (lines 104-114): if the document
exists and is protected, throw; otherwise uppercase a non-empty `descripcion`
and apply the partial update to the matching document. -/
def updateRazon (store : List Razon) (id : String) (u : AppProvider.RazonUpdates) :
    Except ApiError (List Razon) :=
  match store.find? (fun d => d.id == id) with
  | some d =>
    if d.isProtected then .error .protectedEntity
    else .ok (store.map (fun x =>
      if x.id == id then AppProvider.applyRazonUpdates x (razonApiUpdates u) else x))
  | none => .ok (store.map (fun x =>
      if x.id == id then AppProvider.applyRazonUpdates x (razonApiUpdates u) else x))

/-- `deleteRazon` of `src/src/lib/data.ts` (lines 116-123). -/
def deleteRazon (store : List Razon) (id : String) :
    Except ApiError (List Razon) :=
  match store.find? (fun d => d.id == id) with
  | some d =>
    if d.isProtected then .error .protectedEntity
    else .ok (store.filter (fun x => !(x.id == id)))
  | none => .ok (store.filter (fun x => !(x.id == id)))

end api

/-- Error surfaced by the members page of `src/unnamed/part_000`: the
referential-integrity denial of `handleDelete` ('No se puede eliminar un
integrante que tiene registros financieros asociados'), which the spec's
taxonomy names `ReferentialIntegrityError`. -/
inductive UiError where
  | referentialIntegrity
deriving DecidableEq, Repr

namespace MembersPage

/-- `handleDelete` of the members page (`src/unnamed/part_000` lines 82-95):
if any financial record references the member, deny (the store is untouched);
otherwise call the provider's `deleteIntegrante`. -/
def handleDelete (s : AppProvider.AppState) (id : String) :
    Except UiError AppProvider.AppState :=
  if s.financialRecords.any (fun r => r.integranteId == id) then
    .error .referentialIntegrity
  else
    .ok (AppProvider.deleteIntegrante s id)

/-- The member-import processing of `processImport` on the members page
(`src/unnamed/part_000` lines 135-186), for the local destination, after CSV
parsing (a mechanical text transform abstracted here into the parsed
`(nombre, isProtected)` rows; rows with a blank name are skipped).  In add
mode, rows whose lowercased name already belongs to a member are skipped.
If any row survives, the import runs and the success toast reports
`newIntegrantes.length` ('N registros afectados'); otherwise nothing is
imported and an informational toast without any count is shown — the
returned `Option Nat` is the reported count, `none` when no number is
reported.  `importIntegrantesLocal` itself returns no count. -/
def processImportIntegrantes (s : AppProvider.AppState)
    (rows : List (String × Bool)) (mode : AppProvider.ImportMode)
    (now : Nat) (newIds : List String) :
    AppProvider.AppState × Option Nat :=
  let existingNames := s.integrantes.map (fun i => jsToLowerCase i.nombre)
  let newItems : List AppProvider.IntegranteInput := rows.filterMap (fun row =>
    if row.1 = "" then none
    else
      match mode with
      | .add =>
        if existingNames.contains (jsToLowerCase row.1) then none
        else some { nombre := row.1, isProtected := row.2 }
      | .replace => some { nombre := row.1, isProtected := row.2 })
  if 0 < newItems.length then
    (AppProvider.importIntegrantesLocal s newItems mode now newIds, some newItems.length)
  else
    (s, none)

end MembersPage

/-- Concrete fixture: a member named ANA. -/
def exIntegranteAna : Integrante :=
  { id := "i1", userId := DEFAULT_USER_ID, createdAt := 0, updatedAt := 0, nombre := "ANA" }

/-- Concrete fixture: a store holding only ANA. -/
def exStateAna : AppProvider.AppState := { integrantes := [exIntegranteAna] }

/-- Concrete fixture: a protected member (the seeded INVITADO). -/
def exIntegranteInvitado : Integrante :=
  { id := "p1", userId := DEFAULT_USER_ID, createdAt := 0, updatedAt := 0,
    nombre := "INVITADO", isProtected := true }

/-- Concrete fixture: a store holding only the protected member. -/
def exStateProtected : AppProvider.AppState := { integrantes := [exIntegranteInvitado] }

/-- Concrete fixture: an expense record attributed to member `i1`. -/
def exGastoRecord : FinancialRecord :=
  { id := "r1", userId := DEFAULT_USER_ID, createdAt := 0, updatedAt := 0,
    fecha := "01/06/2024", integranteId := "i1", razonId := "z1",
    movimiento := .GASTOS, monto := -50, descripcion := "renta" }

/-- Concrete fixture: a store holding ANA and the expense record referencing her. -/
def exStateGasto : AppProvider.AppState :=
  { integrantes := [exIntegranteAna], financialRecords := [exGastoRecord] }

/-- Concrete fixture: a store with a three-operation pending queue. -/
def exThreeOpsState : AppProvider.AppState :=
  { pendingOps := [.deleteRecord "a", .deleteRecord "b", .deleteRecord "c"] }

/-- Concrete fixture: a sync environment whose second batched operation
(index 1) fails to replay. -/
def exFailSecondEnv : AppProvider.SyncEnv :=
  { opOk := fun i => !(i == 1), pullOk := true, cloudIntegrantes := [],
    cloudRazones := [], cloudRecords := [], now := 11 }

/-- Concrete fixture: a sync environment where every push succeeds and the
pull returns no changes, completing at time `now`. -/
def exQuietEnv (now : Nat) : AppProvider.SyncEnv :=
  { opOk := fun _ => true, pullOk := true, cloudIntegrantes := [],
    cloudRazones := [], cloudRecords := [], now := now }

/-- Concrete fixture: a local reason with identifier `a`. -/
def exRazonA : Razon :=
  { id := "a", userId := DEFAULT_USER_ID, createdAt := 0, updatedAt := 0, descripcion := "X" }

/-- Concrete fixture: the pulled tombstone of reason `a`. -/
def exRazonAd : Razon := { exRazonA with isDeleted := true, updatedAt := 3 }

/-- Concrete fixture: a pulled reason with identifier `b`. -/
def exRazonB : Razon :=
  { id := "b", userId := DEFAULT_USER_ID, createdAt := 2, updatedAt := 2, descripcion := "Y" }

/-- Concrete fixture: a local reason with identifier `c`, not mentioned by any pull. -/
def exRazonC : Razon :=
  { id := "c", userId := DEFAULT_USER_ID, createdAt := 0, updatedAt := 0, descripcion := "Z" }

/-- Concrete fixture: a protected reason. -/
def exRazonProtected : Razon :=
  { id := "pr", userId := DEFAULT_USER_ID, createdAt := 0, updatedAt := 0,
    descripcion := "MENSUALIDAD", isProtected := true }

/-- Concrete fixture: a store holding only the reason `a`. -/
def exStateRazonA : AppProvider.AppState := { razones := [exRazonA] }

/-- Concrete fixture: a store holding one protected and one unprotected reason. -/
def exStateRazones : AppProvider.AppState := { razones := [exRazonProtected, exRazonA] }

namespace AppProvider

variable {α : Type} (gid : α → String) (gdel : α → Bool)

/-- Setting a key that is already present keeps the map's key sequence. -/
lemma mapSet_map_gid_of_any {m : List α} {item : α}
    (h : m.any (fun x => gid x == gid item) = true) :
    (mapSet gid m item).map gid = m.map gid := by
  unfold mapSet
  rw [if_pos h, List.map_map]
  apply List.map_congr_left
  intro x _
  by_cases hg : gid x = gid item
  · simp [Function.comp, hg]
  · simp [Function.comp, beq_iff_eq, hg]

/-- The value `set` with an item keeps that item under its own key. -/
lemma mem_mapSet_self (m : List α) (item : α) : item ∈ mapSet gid m item := by
  unfold mapSet
  split_ifs with h
  · obtain ⟨x, hx, hgx⟩ := List.any_eq_true.mp h
    exact List.mem_map.mpr ⟨x, hx, by simp [hgx]⟩
  · simp

/-- Setting a different key keeps an existing entry. -/
lemma mem_mapSet_of_ne {m : List α} {x item : α} (hx : x ∈ m) (hne : gid x ≠ gid item) :
    x ∈ mapSet gid m item := by
  unfold mapSet
  split_ifs with h
  · exact List.mem_map.mpr ⟨x, hx, by simp [beq_iff_eq, hne]⟩
  · exact List.mem_append_left _ hx

/-- Every entry of `m.set(item)` is the new item or an old entry under another key. -/
lemma mem_mapSet_elim {m : List α} {y e : α} (hy : y ∈ mapSet gid m e) :
    y = e ∨ (y ∈ m ∧ gid y ≠ gid e) := by
  unfold mapSet at hy
  split_ifs at hy with h
  · obtain ⟨x, hx, hxy⟩ := List.mem_map.mp hy
    by_cases hg : gid x = gid e
    · left
      simp only [beq_iff_eq, hg, if_true] at hxy
      exact hxy.symm
    · right
      simp only [beq_iff_eq, hg, if_false] at hxy
      subst hxy
      exact ⟨hx, hg⟩
  · rcases List.mem_append.mp hy with hm | hee
    · have h' : gid y ≠ gid e := by
        intro hgeq
        exact h (List.any_eq_true.mpr ⟨y, hm, by simp [hgeq]⟩)
      exact Or.inr ⟨hm, h'⟩
    · left
      simpa using hee

/-- An entry whose key is set by none of the folded items survives the fold. -/
lemma mem_foldl_of_ne {acc l : List α} {x : α} (hx : x ∈ acc)
    (hne : ∀ e ∈ l, gid e ≠ gid x) : x ∈ List.foldl (mapSet gid) acc l := by
  induction l generalizing acc with
  | nil => simpa using hx
  | cons e t ih =>
    rw [List.foldl_cons]
    refine ih (mem_mapSet_of_ne gid hx (Ne.symm (hne e (List.mem_cons_self e t)))) ?_
    intro e' he'
    exact hne e' (List.mem_cons_of_mem _ he')

/-- Folding a key-distinct batch into the map keeps each of its items. -/
lemma mem_foldl_last {acc l : List α} {e : α} (he : e ∈ l) (hl : (l.map gid).Nodup) :
    e ∈ List.foldl (mapSet gid) acc l := by
  induction l using List.reverseRecOn with
  | nil => cases he
  | append_singleton t a ih =>
    rw [List.foldl_append, List.foldl_cons, List.foldl_nil]
    rw [List.map_append, List.nodup_append] at hl
    rcases List.mem_append.mp he with ht | ha
    · refine mem_mapSet_of_ne gid (ih ht hl.1) ?_
      intro hgeq
      exact hl.2.2 (List.mem_map_of_mem gid ht) (by simp [hgeq])
    · have : e = a := by simpa using ha
      subst this
      exact mem_mapSet_self gid _ _

/-- An entry of the folded map whose key belongs to the batch is one of the
batch's items (the batch overwrote whatever was there). -/
lemma mem_foldl_elim_id {acc l : List α} {y : α}
    (hy : y ∈ List.foldl (mapSet gid) acc l) (hid : gid y ∈ l.map gid) : y ∈ l := by
  induction l using List.reverseRecOn with
  | nil => simp at hid
  | append_singleton t a ih =>
    rw [List.foldl_append, List.foldl_cons, List.foldl_nil] at hy
    rcases mem_mapSet_elim gid hy with rfl | ⟨hm, hne⟩
    · exact List.mem_append_right _ (by simp)
    · have hmem : gid y ∈ t.map gid := by
        rw [List.map_append] at hid
        rcases List.mem_append.mp hid with h1 | h2
        · exact h1
        · exact absurd (by simpa using h2) hne
      exact List.mem_append_left _ (ih hm hmem)

/-- Building a map from entries with pairwise-distinct keys keeps them in order. -/
lemma foldl_mapSet_eq_append {acc l : List α} (h : ((acc ++ l).map gid).Nodup) :
    List.foldl (mapSet gid) acc l = acc ++ l := by
  induction l generalizing acc with
  | nil => simp
  | cons e t ih =>
    rw [List.foldl_cons]
    have hfalse : acc.any (fun x => gid x == gid e) = false := by
      rw [List.any_eq_false]
      intro x hx
      simp only [beq_iff_eq]
      intro hgx
      rw [List.map_append, List.nodup_append] at h
      exact h.2.2 (List.mem_map_of_mem gid hx) (by simp [hgx])
    have hset : mapSet gid acc e = acc ++ [e] := by
      unfold mapSet
      rw [hfalse]
      simp
    rw [hset, @ih (acc ++ [e]) (by simpa [List.append_assoc] using h)]
    simp

/-- `mapSet` preserves distinctness of the key sequence. -/
lemma nodup_map_mapSet {m : List α} {item : α} (h : (m.map gid).Nodup) :
    ((mapSet gid m item).map gid).Nodup := by
  by_cases hany : m.any (fun x => gid x == gid item) = true
  · rw [mapSet_map_gid_of_any gid hany]
    exact h
  · unfold mapSet
    rw [if_neg hany, List.map_append]
    refine List.Nodup.append h (List.nodup_singleton _) ?_
    intro b hb hb2
    obtain ⟨x, hx, hgx⟩ := List.mem_map.mp hb
    have hbe : b = gid item := by simpa using hb2
    exact hany (List.any_eq_true.mpr ⟨x, hx, by simp [hgx, hbe]⟩)

/-- A fold of `mapSet` over any batch keeps the key sequence distinct. -/
lemma nodup_map_foldl {acc : List α} (l : List α) (h : (acc.map gid).Nodup) :
    ((List.foldl (mapSet gid) acc l).map gid).Nodup := by
  induction l generalizing acc with
  | nil => simpa using h
  | cons e t ih =>
    rw [List.foldl_cons]
    exact ih (nodup_map_mapSet gid h)

/-- The merged collection has pairwise-distinct identifiers. -/
lemma nodup_map_mergeData (l c : List α) : ((mergeData gid gdel l c).map gid).Nodup := by
  unfold mergeData
  have h := @nodup_map_foldl α gid ([] : List α) (l ++ c) (by simp)
  have hs : List.Sublist
      (((List.foldl (mapSet gid) [] (l ++ c)).filter (fun item => !(gdel item))).map gid)
      ((List.foldl (mapSet gid) [] (l ++ c)).map gid) :=
    (List.filter_sublist _).map gid
  exact List.Nodup.sublist hs h

/-- No entry of the merged collection is soft-deleted. -/
lemma not_gdel_of_mem_mergeData {l c : List α} {y : α} (hy : y ∈ mergeData gid gdel l c) :
    gdel y = false := by
  unfold mergeData at hy
  simpa using List.of_mem_filter hy

/-- Merging an empty pull into an id-distinct, tombstone-free collection is the
identity. -/
lemma mergeData_nil {x : List α} (h1 : (x.map gid).Nodup) (h2 : ∀ a ∈ x, gdel a = false) :
    mergeData gid gdel x [] = x := by
  unfold mergeData
  rw [List.append_nil, foldl_mapSet_eq_append gid (by simpa using h1), List.nil_append]
  apply List.filter_eq_self.mpr
  intro a ha
  simp [h2 a ha]

/-- Merging an empty pull into a previously merged collection is the identity. -/
lemma mergeData_mergeData_nil (l c : List α) :
    mergeData gid gdel (mergeData gid gdel l c) [] = mergeData gid gdel l c :=
  mergeData_nil gid gdel (nodup_map_mergeData gid gdel l c)
    (fun _ ha => not_gdel_of_mem_mergeData gid gdel ha)

end AppProvider

/-- C1: if one operation of a multi-operation pending queue fails during the
push phase of a sync pass, then after the pass the failed operation and all
operations after it remain in the Pending Operation Queue (indeed the whole
queue is retained, the batch being atomic), and the pull and merge phases do
not execute in that pass: all three collections and the watermark are
untouched. -/
theorem c1_partial_push_failure_retains_queue
    (s : AppProvider.AppState) (wm : Option Nat) (env : AppProvider.SyncEnv)
    (k : Nat) (hk : k < s.pendingOps.length) (hfail : env.opOk k = false) :
    (AppProvider.syncWithCloud s wm env).1.pendingOps = s.pendingOps ∧
    (AppProvider.syncWithCloud s wm env).1.integrantes = s.integrantes ∧
    (AppProvider.syncWithCloud s wm env).1.razones = s.razones ∧
    (AppProvider.syncWithCloud s wm env).1.financialRecords = s.financialRecords ∧
    (AppProvider.syncWithCloud s wm env).2 = wm := by
  have hp : AppProvider.pushFails s.pendingOps.length env.opOk = true := by
    rw [AppProvider.pushFails, List.any_eq_true]
    exact ⟨k, List.mem_range.mpr hk, by simp [hfail]⟩
  have hpos : 0 < s.pendingOps.length := Nat.lt_of_le_of_lt (Nat.zero_le k) hk
  unfold AppProvider.syncWithCloud
  rw [if_pos ⟨hpos, hp⟩]
  exact ⟨rfl, rfl, rfl, rfl, rfl⟩

/-- Witness for C1: a concrete three-operation queue whose second operation
(index 1) fails; the whole queue and the watermark survive the pass. -/
theorem c1_witness :
    (AppProvider.syncWithCloud exThreeOpsState (some 10) exFailSecondEnv).1.pendingOps
        = exThreeOpsState.pendingOps ∧
    (AppProvider.syncWithCloud exThreeOpsState (some 10) exFailSecondEnv).2 = some 10 := by
  have h := c1_partial_push_failure_retains_queue exThreeOpsState (some 10) exFailSecondEnv 1
    (by decide) (by decide)
  exact ⟨h.1, h.2.2.2.2⟩

/-- C2 counterexample: the claim that a second quiet sync pass leaves the
watermark unchanged is false — the code always advances the watermark to the
time of the pass (`setToLocalStorage('lastSyncTimestamp', new Date().getTime())`),
so two passes at times 1 and 2 over an empty store end with watermark 2, not 1. -/
theorem c2_counterexample :
    (AppProvider.syncWithCloud
        (AppProvider.syncWithCloud {} none (exQuietEnv 1)).1
        (AppProvider.syncWithCloud {} none (exQuietEnv 1)).2 (exQuietEnv 2)).2 = some 2 ∧
    (AppProvider.syncWithCloud {} none (exQuietEnv 1)).2 = some 1 ∧
    (some 2 : Option Nat) ≠ some 1 := by
  refine ⟨rfl, rfl, by decide⟩

/-- C2 amended: running a sync pass twice in a row with no local mutations and
no remote changes between the two passes leaves the Entity Store (all three
collections, and the queue, which stays empty) unchanged after the second pass;
the watermark however is advanced to the second pass's completion time, so it
is unchanged only when both passes complete at the same timestamp. -/
theorem c2_second_pass_stores_unchanged
    (s : AppProvider.AppState) (wm : Option Nat) (env1 env2 : AppProvider.SyncEnv)
    (hp : AppProvider.pushFails s.pendingOps.length env1.opOk = false)
    (hl1 : env1.pullOk = true) (hl2 : env2.pullOk = true)
    (hc1 : env2.cloudIntegrantes = []) (hc2 : env2.cloudRazones = [])
    (hc3 : env2.cloudRecords = []) :
    AppProvider.syncWithCloud (AppProvider.syncWithCloud s wm env1).1
        (AppProvider.syncWithCloud s wm env1).2 env2
      = ((AppProvider.syncWithCloud s wm env1).1, some env2.now) := by
  have h1 : AppProvider.syncWithCloud s wm env1 =
      ({ integrantes :=
           AppProvider.mergeData Integrante.id Integrante.isDeleted s.integrantes env1.cloudIntegrantes
         razones := AppProvider.mergeData Razon.id Razon.isDeleted s.razones env1.cloudRazones
         financialRecords := AppProvider.mergeData FinancialRecord.id FinancialRecord.isDeleted
           s.financialRecords env1.cloudRecords
         pendingOps := [] }, some env1.now) := by
    unfold AppProvider.syncWithCloud
    rw [if_neg (by rintro ⟨-, h⟩; rw [hp] at h; exact Bool.false_ne_true h),
      if_neg (by simp [hl1])]
  rw [h1]
  unfold AppProvider.syncWithCloud
  rw [if_neg (by simp), if_neg (by simp [hl2]), hc1, hc2, hc3,
    AppProvider.mergeData_mergeData_nil, AppProvider.mergeData_mergeData_nil,
    AppProvider.mergeData_mergeData_nil]

/-- Witness for C2's amended statement: two quiet passes at times 1 and 2 over
the one-member store; the second pass returns the first pass's state verbatim
with watermark 2. -/
theorem c2_witness :
    AppProvider.syncWithCloud (AppProvider.syncWithCloud exStateAna none (exQuietEnv 1)).1
        (AppProvider.syncWithCloud exStateAna none (exQuietEnv 1)).2 (exQuietEnv 2)
      = ((AppProvider.syncWithCloud exStateAna none (exQuietEnv 1)).1, some 2) :=
  c2_second_pass_stores_unchanged exStateAna none (exQuietEnv 1) (exQuietEnv 2)
    rfl rfl rfl rfl rfl rfl

/-- C3: the merge phase upserts every pulled entity into the local collection
by identifier, the remote version unconditionally overwriting any local version
with the same id (an entry of the result whose id is pulled IS the pulled
entity); after the merge the materialized collection contains no entity with
`isDeleted = true`; and non-deleted local entities not mentioned in the pulled
set are kept as they were.  (A local entity that is itself a tombstone is
dropped by the same `isDeleted` filter, as the claim's first conjunct demands;
local collections never hold tombstones, since merging filters them out and
local deletes are physical.)  Stated for any entity type with `gid`/`gdel` the
`id`/`isDeleted` accessors, assuming each side of the merge is keyed by
distinct identifiers. -/
theorem c3_merge_upsert_and_filter {α : Type} (gid : α → String) (gdel : α → Bool)
    (l c : List α) (hl : (l.map gid).Nodup) (hc : (c.map gid).Nodup) :
    (∀ e ∈ c, gdel e = false → e ∈ AppProvider.mergeData gid gdel l c) ∧
    (∀ y ∈ AppProvider.mergeData gid gdel l c, gdel y = false) ∧
    (∀ x ∈ l, gid x ∉ c.map gid → gdel x = false → x ∈ AppProvider.mergeData gid gdel l c) ∧
    (∀ y ∈ AppProvider.mergeData gid gdel l c, gid y ∈ c.map gid → y ∈ c) := by
  refine ⟨?_, ?_, ?_, ?_⟩
  · intro e he hdel
    unfold AppProvider.mergeData
    apply List.mem_filter.mpr
    refine ⟨?_, by simp [hdel]⟩
    rw [List.foldl_append]
    exact AppProvider.mem_foldl_last gid he hc
  · intro y hy
    exact AppProvider.not_gdel_of_mem_mergeData gid gdel hy
  · intro x hx hnotin hdel
    unfold AppProvider.mergeData
    apply List.mem_filter.mpr
    refine ⟨?_, by simp [hdel]⟩
    rw [List.foldl_append]
    refine AppProvider.mem_foldl_of_ne gid (AppProvider.mem_foldl_last gid hx hl) ?_
    intro e he hgeq
    exact hnotin (hgeq ▸ List.mem_map_of_mem gid he)
  · intro y hy hid
    unfold AppProvider.mergeData at hy
    have hy' := (List.mem_filter.mp hy).1
    rw [List.foldl_append] at hy'
    exact AppProvider.mem_foldl_elim_id gid hy' hid

/-- Witness for C3: merging the pull `[tombstone of a, b]` into the local
collection `[a, c]` keeps the pulled `b`, keeps the untouched local `c`, and
`b` is not deleted. -/
theorem c3_witness :
    exRazonB ∈ AppProvider.mergeData Razon.id Razon.isDeleted [exRazonA, exRazonC]
        [exRazonAd, exRazonB] ∧
    exRazonC ∈ AppProvider.mergeData Razon.id Razon.isDeleted [exRazonA, exRazonC]
        [exRazonAd, exRazonB] ∧
    exRazonB.isDeleted = false := by
  have h := c3_merge_upsert_and_filter Razon.id Razon.isDeleted [exRazonA, exRazonC]
    [exRazonAd, exRazonB] (by decide) (by decide)
  refine ⟨h.1 exRazonB (by decide) rfl, h.2.2.1 exRazonC (by decide) (by decide) rfl, ?_⟩
  exact h.2.1 exRazonB (h.1 exRazonB (by decide) rfl)

/-- C4 counterexample: `importIntegrantesLocal` mutates the Entity Store (one
member is created) but appends nothing to the Pending Operation Queue, so the
claim that every Mutation API operation, import included, grows the queue by
exactly one entry is false. -/
theorem c4_counterexample :
    (AppProvider.importIntegrantesLocal {} [{ nombre := "ana" }] .add 1 ["u1"]).integrantes.length
        = 1 ∧
    (AppProvider.importIntegrantesLocal {} [{ nombre := "ana" }] .add 1 ["u1"]).pendingOps.length
        = 0 :=
  ⟨rfl, rfl⟩

/-- C4 amended: every add, update and delete operation of the Mutation API
applies its change to the local Entity Store immediately and appends exactly
one equivalent entry to the Pending Operation Queue; the three import
operations apply their change immediately but append nothing to the queue. -/
theorem c4_mutations_enqueue_imports_do_not :
    (∀ (s : AppProvider.AppState) (fecha iid rid : String) (mov : Movimiento) (monto : Int)
        (desc nid : String) (now : Nat),
      (AppProvider.addFinancialRecord s fecha iid rid mov monto desc nid now).financialRecords
          = s.financialRecords ++ [AppProvider.mkNewRecord fecha iid rid mov monto desc nid now] ∧
      (AppProvider.addFinancialRecord s fecha iid rid mov monto desc nid now).pendingOps
          = s.pendingOps ++ [AppProvider.PendingOperation.addRecord
              (AppProvider.mkNewRecord fecha iid rid mov monto desc nid now)]) ∧
    (∀ (s : AppProvider.AppState) (id : String) (u : AppProvider.RecordUpdates) (now : Nat),
      (AppProvider.updateFinancialRecord s id u now).financialRecords
          = s.financialRecords.map (fun r =>
              if r.id == id then AppProvider.applyRecordUpdates r { u with updatedAt := some now }
              else r) ∧
      (AppProvider.updateFinancialRecord s id u now).pendingOps
          = s.pendingOps ++ [AppProvider.PendingOperation.updateRecord id
              { u with updatedAt := some now }]) ∧
    (∀ (s : AppProvider.AppState) (id : String),
      (AppProvider.deleteFinancialRecord s id).financialRecords
          = s.financialRecords.filter (fun r => !(r.id == id)) ∧
      (AppProvider.deleteFinancialRecord s id).pendingOps
          = s.pendingOps ++ [AppProvider.PendingOperation.deleteRecord id]) ∧
    (∀ (s : AppProvider.AppState) (nombre : String) (isProt : Bool) (nid : String) (now : Nat),
      (AppProvider.addIntegrante s nombre isProt nid now).integrantes
          = s.integrantes ++ [AppProvider.mkNewIntegrante nombre isProt nid now] ∧
      (AppProvider.addIntegrante s nombre isProt nid now).pendingOps
          = s.pendingOps ++ [AppProvider.PendingOperation.addIntegrante
              (AppProvider.mkNewIntegrante nombre isProt nid now)]) ∧
    (∀ (s : AppProvider.AppState) (id nombre : String) (now : Nat),
      (AppProvider.updateIntegrante s id nombre now).integrantes
          = s.integrantes.map (fun i =>
              if i.id == id then { i with nombre := jsToUpperCase nombre, updatedAt := now } else i) ∧
      (AppProvider.updateIntegrante s id nombre now).pendingOps
          = s.pendingOps ++ [AppProvider.PendingOperation.updateIntegrante id (jsToUpperCase nombre) now]) ∧
    (∀ (s : AppProvider.AppState) (id : String),
      (AppProvider.deleteIntegrante s id).integrantes
          = s.integrantes.filter (fun i => !(i.id == id)) ∧
      (AppProvider.deleteIntegrante s id).pendingOps
          = s.pendingOps ++ [AppProvider.PendingOperation.deleteIntegrante id]) ∧
    (∀ (s : AppProvider.AppState) (desc : String) (isQuick isProt : Bool) (nid : String) (now : Nat),
      (AppProvider.addRazon s desc isQuick isProt nid now).razones
          = s.razones ++ [AppProvider.mkNewRazon desc isQuick isProt nid now] ∧
      (AppProvider.addRazon s desc isQuick isProt nid now).pendingOps
          = s.pendingOps ++ [AppProvider.PendingOperation.addRazon
              (AppProvider.mkNewRazon desc isQuick isProt nid now)]) ∧
    (∀ (s : AppProvider.AppState) (id : String) (u : AppProvider.RazonUpdates) (now : Nat),
      (AppProvider.updateRazon s id u now).razones
          = s.razones.map (fun r =>
              if r.id == id then AppProvider.applyRazonUpdates r (AppProvider.razonFinalUpdates u now)
              else r) ∧
      (AppProvider.updateRazon s id u now).pendingOps
          = s.pendingOps ++ [AppProvider.PendingOperation.updateRazon id
              (AppProvider.razonFinalUpdates u now)]) ∧
    (∀ (s : AppProvider.AppState) (id : String),
      (AppProvider.deleteRazon s id).razones
          = s.razones.filter (fun r => !(r.id == id)) ∧
      (AppProvider.deleteRazon s id).pendingOps
          = s.pendingOps ++ [AppProvider.PendingOperation.deleteRazon id]) ∧
    (∀ (s : AppProvider.AppState) (l : List AppProvider.IntegranteInput)
        (mode : AppProvider.ImportMode) (now : Nat) (ids : List String),
      (AppProvider.importIntegrantesLocal s l mode now ids).pendingOps = s.pendingOps) ∧
    (∀ (s : AppProvider.AppState) (l : List AppProvider.RazonInput)
        (mode : AppProvider.ImportMode) (now : Nat) (ids : List String),
      (AppProvider.importRazonesLocal s l mode now ids).pendingOps = s.pendingOps) ∧
    (∀ (s : AppProvider.AppState) (l : List AppProvider.RecordInput)
        (mode : AppProvider.ImportMode) (now : Nat) (ids : List String),
      (AppProvider.importFinancialRecordsLocal s l mode now ids).pendingOps = s.pendingOps) := by
  refine ⟨?_, ?_, ?_, ?_, ?_, ?_, ?_, ?_, ?_, ?_, ?_, ?_⟩ <;> intros <;>
    first
      | exact ⟨rfl, rfl⟩
      | rfl

/-- C5: the local `updateFinancialRecord` (`AppProvider.tsx` lines 200-205)
performs no amount-sign normalization, although the spec's invariant demands it
of every write path touching `monto` or `movimiento` and the cloud-side
`updateFinancialRecord` of `data.ts` does normalize.  Updating the stored
expense record `r1` with `monto = 150` — exactly what the edit form submits,
since its schema coerces the amount to a positive number — stores a GASTOS
record with `monto = 150 > 0`, violating GASTOS implies `monto` nonpositive. -/
theorem c5_local_update_skips_sign_normalization :
    ((AppProvider.updateFinancialRecord exStateGasto "r1" { monto := some 150 } 7).financialRecords.map
        (fun r => (r.movimiento, r.monto))) = [(Movimiento.GASTOS, (150 : Int))] ∧
    (0 : Int) < 150 :=
  ⟨rfl, by decide⟩

/-- C6 counterexample: the local provider's `updateIntegrante` performs no
`isProtected` check — updating the protected member INVITADO through it raises
no error (the function is total) and changes the stored entity, so the claim
that every update of a protected entity fails and leaves it unchanged is false
on the local Mutation API path. -/
theorem c6_counterexample :
    (AppProvider.updateIntegrante exStateProtected "p1" "nuevo" 5).integrantes
        = [{ exIntegranteInvitado with nombre := "NUEVO", updatedAt := 5 }] ∧
    ({ exIntegranteInvitado with nombre := "NUEVO", updatedAt := 5 } : Integrante)
        ≠ exIntegranteInvitado :=
  ⟨by decide, by decide⟩

/-- C6 amended: for every Integrante or Razon with `isProtected = true`, the
cloud API's `updateIntegrante` / `deleteIntegrante` / `updateRazon` /
`deleteRazon` of `data.ts` fail with the protected-entity error before writing
(the collection is untouched, no updated collection being produced); the local
provider's update and delete apply the mutation without any protection check
(see the counterexample). -/
theorem c6_api_rejects_protected
    (istore : List Integrante) (rstore : List Razon) (iid rid nombre : String)
    (u : AppProvider.RazonUpdates) (di : Integrante) (dr : Razon)
    (hdi : istore.find? (fun d => d.id == iid) = some di) (hpi : di.isProtected = true)
    (hdr : rstore.find? (fun d => d.id == rid) = some dr) (hpr : dr.isProtected = true) :
    api.updateIntegrante istore iid nombre = .error .protectedEntity ∧
    api.deleteIntegrante istore iid = .error .protectedEntity ∧
    api.updateRazon rstore rid u = .error .protectedEntity ∧
    api.deleteRazon rstore rid = .error .protectedEntity := by
  refine ⟨?_, ?_, ?_, ?_⟩
  · unfold api.updateIntegrante
    rw [hdi]
    simp [hpi]
  · unfold api.deleteIntegrante
    rw [hdi]
    simp [hpi]
  · unfold api.updateRazon
    rw [hdr]
    simp [hpr]
  · unfold api.deleteRazon
    rw [hdr]
    simp [hpr]

/-- Witness for C6's amended statement at the concrete protected member and
protected reason. -/
theorem c6_witness :
    api.updateIntegrante [exIntegranteInvitado] "p1" "otro" = .error .protectedEntity ∧
    api.deleteIntegrante [exIntegranteInvitado] "p1" = .error .protectedEntity ∧
    api.updateRazon [exRazonProtected] "pr" {} = .error .protectedEntity ∧
    api.deleteRazon [exRazonProtected] "pr" = .error .protectedEntity :=
  c6_api_rejects_protected [exIntegranteInvitado] [exRazonProtected] "p1" "pr" "otro" {}
    exIntegranteInvitado exRazonProtected rfl rfl rfl rfl

/-- C7: deleting a Member referenced by at least one financial record is denied
with the referential-integrity error and the store is untouched (no new state
is produced); once no record references the member, the deletion succeeds and
the member is gone from the collection.  (Local collections hold no deleted
records — local deletion is physical — so every stored record is non-deleted.) -/
theorem c7_referential_integrity (s : AppProvider.AppState) (id : String) :
    ((∃ r ∈ s.financialRecords, r.integranteId = id) →
      MembersPage.handleDelete s id = .error .referentialIntegrity) ∧
    ((∀ r ∈ s.financialRecords, r.integranteId ≠ id) →
      MembersPage.handleDelete s id = .ok (AppProvider.deleteIntegrante s id) ∧
      ∀ i ∈ (AppProvider.deleteIntegrante s id).integrantes, i.id ≠ id) := by
  constructor
  · rintro ⟨r, hr, hid⟩
    unfold MembersPage.handleDelete
    rw [if_pos]
    exact List.any_eq_true.mpr ⟨r, hr, by simp [hid]⟩
  · intro h
    have hfalse : s.financialRecords.any (fun r => r.integranteId == id) = false := by
      rw [List.any_eq_false]
      intro r hr
      simpa using h r hr
    constructor
    · unfold MembersPage.handleDelete
      rw [hfalse]
      simp
    · intro i hi
      have := List.of_mem_filter hi
      simpa using this

/-- Witness for C7: deleting `i1` is denied while the expense record references
it, and succeeds on the store where no record does. -/
theorem c7_witness :
    MembersPage.handleDelete exStateGasto "i1" = .error .referentialIntegrity ∧
    MembersPage.handleDelete exStateAna "i1" = .ok (AppProvider.deleteIntegrante exStateAna "i1") := by
  constructor
  · exact (c7_referential_integrity exStateGasto "i1").1 ⟨exGastoRecord, by decide, rfl⟩
  · exact ((c7_referential_integrity exStateAna "i1").2 (by decide)).1

/-- C8: importing N Reasons in Replace mode when the store holds M protected
Reasons leaves exactly N + M non-deleted Reasons, and each protected Reason
survives identical to its pre-import value (the replace branch keeps the
protected entries verbatim and appends the N freshly-built entities).
Hypotheses: the store and the import payloads carry no tombstones, the local
store's invariant (merging filters tombstones out and local deletes are
physical). -/
theorem c8_replace_import_preserves_protected
    (s : AppProvider.AppState) (toImport : List AppProvider.RazonInput)
    (now : Nat) (newIds : List String)
    (h1 : ∀ r ∈ s.razones, r.isDeleted = false)
    (h2 : ∀ i ∈ toImport, i.isDeleted = false) :
    ((AppProvider.importRazonesLocal s toImport .replace now newIds).razones.filter
        (fun r => !(r.isDeleted))).length
      = toImport.length + (s.razones.filter (fun r => r.isProtected)).length ∧
    ∀ r ∈ s.razones, r.isProtected = true →
      r ∈ (AppProvider.importRazonesLocal s toImport .replace now newIds).razones := by
  have hrz : (AppProvider.importRazonesLocal s toImport .replace now newIds).razones
      = s.razones.filter (fun r => r.isProtected)
        ++ toImport.enum.map (fun p => AppProvider.mkImportedRazon p.2 (newIds.getD p.1 "") now) :=
    rfl
  constructor
  · rw [hrz, List.filter_append, List.length_append]
    have hA : (s.razones.filter (fun r => r.isProtected)).filter (fun r => !(r.isDeleted))
        = s.razones.filter (fun r => r.isProtected) := by
      apply List.filter_eq_self.mpr
      intro a ha
      simp [h1 a (List.mem_of_mem_filter ha)]
    have hB : ((toImport.enum.map
          (fun p => AppProvider.mkImportedRazon p.2 (newIds.getD p.1 "") now)).filter
            (fun r => !(r.isDeleted)))
        = toImport.enum.map (fun p => AppProvider.mkImportedRazon p.2 (newIds.getD p.1 "") now) := by
      apply List.filter_eq_self.mpr
      intro a ha
      obtain ⟨p, hp, rfl⟩ := List.mem_map.mp ha
      have hmem : p.2 ∈ toImport :=
        List.getElem?_mem (List.mem_enum_iff_getElem?.mp hp)
      simp [AppProvider.mkImportedRazon, h2 _ hmem]
    rw [hA, hB, List.length_map, List.enum_length, Nat.add_comm]
  · intro r hr hprot
    rw [hrz]
    exact List.mem_append_left _ (List.mem_filter.mpr ⟨hr, by simp [hprot]⟩)

/-- Witness for C8: replacing the two-reason store (one protected) with one
imported reason leaves 2 = 1 + 1 non-deleted reasons, among them the original
protected one. -/
theorem c8_witness :
    ((AppProvider.importRazonesLocal exStateRazones [{ descripcion := "NUEVA" }] .replace 4
        ["n1"]).razones.filter (fun r => !(r.isDeleted))).length = 2 ∧
    exRazonProtected ∈ (AppProvider.importRazonesLocal exStateRazones [{ descripcion := "NUEVA" }]
        .replace 4 ["n1"]).razones := by
  have h := c8_replace_import_preserves_protected exStateRazones [{ descripcion := "NUEVA" }] 4
    ["n1"] (by decide) (by decide)
  exact ⟨h.1.trans (by decide), h.2 exRazonProtected (by decide) rfl⟩

/-- C9 counterexample: importing `ana` in Add mode when `ANA` exists creates no
entity — but the operation reports no created count at all: the UI layer emits
an informational message without a number (modelled as `none`), and
`importIntegrantesLocal` itself returns only the new state, so the claimed
reported zero count (`some 0`) does not exist. -/
theorem c9_counterexample :
    (MembersPage.processImportIntegrantes exStateAna [("ana", false)] .add 5 ["n1"]).2 = none ∧
    (MembersPage.processImportIntegrantes exStateAna [("ana", false)] .add 5 ["n1"]).1.integrantes
        = exStateAna.integrantes ∧
    (none : Option Nat) ≠ some 0 :=
  ⟨by decide, by decide, by decide⟩

/-- C9 amended: importing a Member whose name case-insensitively matches an
existing Member's name in Add mode creates no new entity — the state is
returned unchanged — and no created count is reported to the caller: the
UI-side processing reports `none` (a count-free informational message) and the
operation itself returns only the state. -/
theorem c9_add_import_dedup_reports_nothing
    (s : AppProvider.AppState) (nombre : String) (p : Bool) (now : Nat) (newIds : List String)
    (h1 : (s.integrantes.map (fun i => jsToLowerCase i.nombre)).contains
        (jsToLowerCase nombre) = true)
    (h2 : (s.integrantes.map (fun i => jsToLowerCase i.nombre)).contains
        (jsToLowerCase (jsToUpperCase nombre)) = true) :
    MembersPage.processImportIntegrantes s [(nombre, p)] .add now newIds = (s, none) ∧
    AppProvider.importIntegrantesLocal s [{ nombre := nombre, isProtected := p }] .add now newIds
        = s := by
  constructor
  · have h1' : ∃ x ∈ s.integrantes, jsToLowerCase x.nombre = jsToLowerCase nombre := by
      simpa using h1
    unfold MembersPage.processImportIntegrantes
    by_cases he : nombre = ""
    · simp [he]
    · simp [he, h1']
  · have h2' : ∃ x ∈ s.integrantes,
        jsToLowerCase x.nombre = jsToLowerCase (jsToUpperCase nombre) := by
      simpa using h2
    unfold AppProvider.importIntegrantesLocal
    simp [List.enum, List.enumFrom, AppProvider.mkImportedIntegrante, h2']

/-- Witness for C9's amended statement: importing `ana` over the store holding
`ANA`. -/
theorem c9_witness :
    MembersPage.processImportIntegrantes exStateAna [("ana", false)] .add 5 ["n1"]
        = (exStateAna, none) ∧
    AppProvider.importIntegrantesLocal exStateAna [{ nombre := "ana" }] .add 5 ["n1"]
        = exStateAna :=
  c9_add_import_dedup_reports_nothing exStateAna "ana" false 5 ["n1"] (by decide) (by decide)

/-- C10: calling `updateRazon` with an updates object carrying no non-empty
`descripcion` (absent, or present as the empty string) sets the stored reason's
`descripcion` to the empty string — `finalUpdates.descripcion` is always
populated from `(updates.descripcion || '').toUpperCase()` — while the other
supplied fields are applied and `updatedAt` is set to the call time. -/
theorem c10_updateRazon_blanks_descripcion
    (s : AppProvider.AppState) (id : String) (u : AppProvider.RazonUpdates) (now : Nat)
    (r : Razon) (hr : r ∈ s.razones) (hid : r.id = id)
    (hd : u.descripcion = none ∨ u.descripcion = some "") :
    (AppProvider.applyRazonUpdates r (AppProvider.razonFinalUpdates u now)).descripcion = "" ∧
    (AppProvider.applyRazonUpdates r (AppProvider.razonFinalUpdates u now)).updatedAt = now ∧
    (AppProvider.applyRazonUpdates r (AppProvider.razonFinalUpdates u now)).isQuickReason
        = u.isQuickReason.getD r.isQuickReason ∧
    (AppProvider.applyRazonUpdates r (AppProvider.razonFinalUpdates u now)).isProtected
        = u.isProtected.getD r.isProtected ∧
    AppProvider.applyRazonUpdates r (AppProvider.razonFinalUpdates u now)
        ∈ (AppProvider.updateRazon s id u now).razones := by
  refine ⟨?_, rfl, rfl, rfl, ?_⟩
  · rcases hd with h | h <;>
      simp [AppProvider.applyRazonUpdates, AppProvider.razonFinalUpdates, h, jsToUpperCase]
  · unfold AppProvider.updateRazon
    have hfun : (fun x => if x.id == id
          then AppProvider.applyRazonUpdates x (AppProvider.razonFinalUpdates u now) else x) r
        = AppProvider.applyRazonUpdates r (AppProvider.razonFinalUpdates u now) := by
      simp [hid]
    exact hfun ▸ List.mem_map_of_mem _ hr

/-- Witness for C10: toggling only `isQuickReason` on the stored reason `a`
blanks its description, applies the toggle and stamps the call time. -/
theorem c10_witness :
    (AppProvider.applyRazonUpdates exRazonA
        (AppProvider.razonFinalUpdates { isQuickReason := some true } 9)).descripcion = "" ∧
    (AppProvider.applyRazonUpdates exRazonA
        (AppProvider.razonFinalUpdates { isQuickReason := some true } 9)).updatedAt = 9 ∧
    (AppProvider.applyRazonUpdates exRazonA
        (AppProvider.razonFinalUpdates { isQuickReason := some true } 9)).isQuickReason = true ∧
    AppProvider.applyRazonUpdates exRazonA (AppProvider.razonFinalUpdates
        { isQuickReason := some true } 9)
      ∈ (AppProvider.updateRazon exStateRazonA "a" { isQuickReason := some true } 9).razones := by
  have h := c10_updateRazon_blanks_descripcion exStateRazonA "a" { isQuickReason := some true } 9
    exRazonA (by decide) rfl (Or.inl rfl)
  exact ⟨h.1, h.2.1, h.2.2.1, h.2.2.2.2⟩
